import Mathlib

/-!
Shallow embedding of the rp2040 noise-generator firmware
(src/src/lib.rs and src/src/main.rs) and verification of its
specification claims.

Numeric model: an `I16F16` fixed-point value is represented by its raw
bit pattern as an unbounded integer (`ℤ`); the represented value is
`bits / 2^16`.  The `fixed` crate implements `a * b` as the full double
width product arithmetically shifted right by 16 bits, which is floor
division by `65536`; on `ℤ` with a positive divisor, `/` (Euclidean
division) is exactly floor division, so all fixed-point arithmetic
below is bit-exact as long as results stay inside the `i32` range
(overflow freedom is itself one of the claims, C9).  A 32-bit random
word is a `ℕ`; the code only inspects it through `&&& 0x80000000` and
`&&& 0xFFFF`, which agree with the `u32` semantics.
-/

/-- Fixed-point (I16F16) multiplication on raw bits: full product shifted
arithmetically right by 16 bits (floor division by 65536), exactly the
`fixed` crate's `Mul` on the bit level. -/
def fmul (a b : ℤ) : ℤ := a * b / 65536

/-- Raw bits of `I16F16::from_num(0.00414308)`, the coefficient `b[0]` of
`Butterworth::compute` (src/src/lib.rs line 39). -/
def b0 : ℤ := 272

/-- Raw bits of `I16F16::from_num(0)`, the coefficient `b[1]`
(src/src/lib.rs line 40). -/
def b1 : ℤ := 0

/-- Raw bits of `I16F16::from_num(-0.00414308)`, the coefficient `b[2]`
(src/src/lib.rs line 41). -/
def b2 : ℤ := -272

/-- Raw bits of `I16F16::from_num(-1.99130017)`, the coefficient `a[1]`
(src/src/lib.rs line 45). -/
def a1 : ℤ := -130502

/-- Raw bits of `I16F16::from_num(0.99171384)`, the coefficient `a[2]`
(src/src/lib.rs line 46). -/
def a2 : ℤ := 64993

/-- Raw bits of `I16F16::lit("0.997")`, the brown-noise `LEAKAGE`
constant (src/src/main.rs line 91). -/
def LEAKAGE : ℤ := 65339

/-- Raw bits of `I16F16::lit("0.01")`, the brown-noise `SCALING`
constant (src/src/main.rs line 92). -/
def SCALING : ℤ := 655

/-- Raw bits of `I16F16::lit("0.25")`, the brown-noise `VOLUME`
constant (src/src/main.rs line 93). -/
def VOLUME : ℤ := 16384

/-- Raw bits of `I16F16::MAX` (src/src/main.rs line 117). -/
def I16F16MAX : ℤ := 2147483647

/-- Conversion used by `from_num` and `lit` on decimal constants:
round the value times `2^16` to the nearest integer (the `fixed` crate
rounds decimal and floating conversions to nearest). -/
def fixedBitsOfRat (q : ℚ) : ℤ := round (q * 65536)

theorem b0_provenance : b0 = fixedBitsOfRat (414308 / 100000000) := by
  rw [fixedBitsOfRat, round_eq, b0]
  symm
  rw [Int.floor_eq_iff]
  norm_num

theorem b2_provenance : b2 = fixedBitsOfRat (-414308 / 100000000) := by
  rw [fixedBitsOfRat, round_eq, b2]
  symm
  rw [Int.floor_eq_iff]
  norm_num

theorem a1_provenance : a1 = fixedBitsOfRat (-199130017 / 100000000) := by
  rw [fixedBitsOfRat, round_eq, a1]
  symm
  rw [Int.floor_eq_iff]
  norm_num

theorem a2_provenance : a2 = fixedBitsOfRat (99171384 / 100000000) := by
  rw [fixedBitsOfRat, round_eq, a2]
  symm
  rw [Int.floor_eq_iff]
  norm_num

theorem leakage_provenance : LEAKAGE = fixedBitsOfRat (997 / 1000) := by
  rw [fixedBitsOfRat, round_eq, LEAKAGE]
  symm
  rw [Int.floor_eq_iff]
  norm_num

theorem scaling_provenance : SCALING = fixedBitsOfRat (1 / 100) := by
  rw [fixedBitsOfRat, round_eq, SCALING]
  symm
  rw [Int.floor_eq_iff]
  norm_num

theorem volume_provenance : VOLUME = fixedBitsOfRat (25 / 100) := by
  rw [fixedBitsOfRat, round_eq, VOLUME]
  symm
  rw [Int.floor_eq_iff]
  norm_num

/-- `gen_white_noise` (src/src/lib.rs lines 65-74): the low 16 bits of
the random word are the magnitude bits; if bit 31 is set the magnitude
is multiplied by `-1`.  The identical computation is inlined in
`generate_brown_noise` (src/src/main.rs lines 97-103). -/
def gen_white_noise (rv : ℕ) : ℤ :=
  if rv &&& 0x80000000 = 0 then ((rv &&& 0xFFFF : ℕ) : ℤ)
  else ((rv &&& 0xFFFF : ℕ) : ℤ) * (-1)

/-- State of the `Butterworth` filter (src/src/lib.rs lines 6-11):
3-slot circular input history, 2-slot circular output history, and the
two write cursors. -/
structure Butterworth where
  inputs : Fin 3 → ℤ
  outputs : Fin 2 → ℤ
  input_index : Fin 3
  output_index : Fin 2

/-- `Butterworth::new` (src/src/lib.rs lines 14-21). -/
def Butterworth.new : Butterworth :=
  { inputs := fun _ => 0, outputs := fun _ => 0, input_index := 0, output_index := 0 }

/-- `Butterworth::push_input` (src/src/lib.rs lines 23-26): write at the
cursor, then advance the cursor modulo 3 (`Fin 3` addition is mod 3). -/
def Butterworth.push_input (s : Butterworth) (input : ℤ) : Butterworth :=
  { s with inputs := Function.update s.inputs s.input_index input,
           input_index := s.input_index + 1 }

/-- `Butterworth::push_output` (src/src/lib.rs lines 28-31). -/
def Butterworth.push_output (s : Butterworth) (output : ℤ) : Butterworth :=
  { s with outputs := Function.update s.outputs s.output_index output,
           output_index := s.output_index + 1 }

/-- `Butterworth::compute` (src/src/lib.rs lines 33-61): push the input,
then evaluate the difference equation reading the histories at the
offsets written in the source (`input_index`, `(input_index + 2) % 3`,
`(input_index + 1) % 3`, `(output_index + 1) % 2`, `output_index`), and
push the output.  Returns the updated state and the output sample. -/
def Butterworth.compute (s : Butterworth) (input : ℤ) : Butterworth × ℤ :=
  let s1 := s.push_input input
  let y := fmul b0 (s1.inputs s1.input_index)
    + fmul b1 (s1.inputs (s1.input_index + 2))
    + fmul b2 (s1.inputs (s1.input_index + 1))
    - fmul a1 (s1.outputs (s1.output_index + 1))
    - fmul a2 (s1.outputs s1.output_index)
  (s1.push_output y, y)

/-- Folding a list of inputs through `Butterworth::compute`, keeping the
state (the filter as used one sample at a time). -/
def computeRunState (s : Butterworth) (xs : List ℤ) : Butterworth :=
  xs.foldl (fun t x => (t.compute x).1) s

/-- Candidate next random-walk value of `generate_brown_noise`
(src/src/main.rs line 105): `LEAKAGE * prior_sample + white * SCALING`. -/
def brownCandidate (prior : ℤ) (rv : ℕ) : ℤ :=
  fmul LEAKAGE prior + fmul (gen_white_noise rv) SCALING

/-- Pre-volume new sample of `generate_brown_noise` (src/src/main.rs
lines 109-113): if the candidate would leave `[-0.25, 0.25]`
(`>= 0.25` or `<= -0.25` on raw bits: `>= 16384` or `<= -16384`), the
white-noise step direction is inverted; otherwise the candidate is
used. -/
def brownPre (prior : ℤ) (rv : ℕ) : ℤ :=
  if 16384 ≤ brownCandidate prior rv ∨ brownCandidate prior rv ≤ -16384 then
    fmul LEAKAGE prior - fmul (gen_white_noise rv) SCALING
  else brownCandidate prior rv

/-- Volume-scaled sample (src/src/main.rs line 114): `new_sample * VOLUME`.
This shadowed `new_sample` is both emitted and, at line 119, assigned to
`prior_sample` for the next iteration. -/
def brownScaled (prior : ℤ) (rv : ℕ) : ℤ := fmul (brownPre prior rv) VOLUME

/-- Truncation of the amplitude-scaled sample (src/src/main.rs
lines 117-118): `(new_sample * I16F16::MAX).to_num::<i16>()`.  The
`fixed` crate's `to_num` discards the 16 fractional bits, rounding
toward negative infinity. -/
def brownTrunc (prior : ℤ) (rv : ℕ) : ℤ :=
  fmul (brownScaled prior rv) I16F16MAX / 65536

/-- The 32-bit word stored in the buffer (src/src/main.rs line 118):
`(trunc as u32) & 0xFFFF`, i.e. the low 16 bits of the two's-complement
representation of the truncated sample. -/
def brownWord (prior : ℤ) (rv : ℕ) : ℕ := (brownTrunc prior rv % 65536).toNat

/-- `generate_brown_noise` (src/src/main.rs lines 85-122) over an
explicit list of 32-bit random draws (one draw per buffer slot, in
order).  Returns the buffer contents and the carried `prior_sample`.
The `gen_num` argument is threaded through exactly as in the source,
which never reads it. -/
def generate_brown_noise (gen_num : ℕ) (prior : ℤ) : List ℕ → List ℕ × ℤ
  | [] => ([], prior)
  | rv :: rest =>
    let tail := generate_brown_noise gen_num (brownScaled prior rv) rest
    (brownWord prior rv :: tail.1, tail.2)

/-- `TABLE_SIZE` (src/src/main.rs line 28): number of 32-bit words per
transfer buffer. -/
def TABLE_SIZE : ℕ := 220

/-- The random draws consumed by one buffer generation, as a window of
an infinite draw stream. -/
def draws (rng : ℕ → ℕ) (pos n : ℕ) : List ℕ :=
  (List.range n).map fun i => rng (pos + i)

/-- Abstract state of the streaming scheduler loop (src/src/main.rs
lines 280-294), with the transfer engine as an abstract consumer:
`pos` is the position in the random stream, `prior` the carried
`prior_sample`, `gen_num` the generation counter, `inflight` the buffer
most recently handed to the engine via `read_next`, `next_buf` the free
buffer reclaimed from the engine, and `handed` the log of buffers handed
to the engine since the loop started. -/
structure SchedState where
  pos : ℕ
  prior : ℤ
  gen_num : ℕ
  inflight : List ℕ
  next_buf : List ℕ
  handed : List (List ℕ)

/-- One transfer-completion event of the scheduler loop body
(src/src/main.rs lines 281-293): first `generate_brown_noise` fills the
free buffer completely, then (and only then) the filled buffer is handed
to the engine by `read_next`, and the buffer that just finished
transferring becomes the new free buffer. -/
def schedStep (rng : ℕ → ℕ) (s : SchedState) : SchedState :=
  { pos := s.pos + TABLE_SIZE
    prior := (generate_brown_noise s.gen_num s.prior (draws rng s.pos TABLE_SIZE)).2
    gen_num := s.gen_num + 1
    inflight := (generate_brown_noise s.gen_num s.prior (draws rng s.pos TABLE_SIZE)).1
    next_buf := s.inflight
    handed := s.handed
      ++ [(generate_brown_noise s.gen_num s.prior (draws rng s.pos TABLE_SIZE)).1] }

/-- Scheduler state at loop entry (src/src/main.rs lines 261-279): the
two priming buffers have been generated (`gen_num = 2`, 2 × TABLE_SIZE
draws consumed, `prior_sample` carried through both), the second one is
bound to the engine, and the third buffer (zero-initialized) is free. -/
def schedInit (rng : ℕ → ℕ) : SchedState :=
  { pos := 2 * TABLE_SIZE
    prior := (generate_brown_noise 1 (generate_brown_noise 0 0 (draws rng 0 TABLE_SIZE)).2
        (draws rng TABLE_SIZE TABLE_SIZE)).2
    gen_num := 2
    inflight := (generate_brown_noise 1 (generate_brown_noise 0 0 (draws rng 0 TABLE_SIZE)).2
        (draws rng TABLE_SIZE TABLE_SIZE)).1
    next_buf := List.replicate TABLE_SIZE 0
    handed := [] }

/-- Scheduler state after `n` transfer-completion events. -/
def schedRun (rng : ℕ → ℕ) : ℕ → SchedState
  | 0 => schedInit rng
  | n + 1 => schedStep rng (schedRun rng n)

/-- `SampleFrequency` (src/src/main.rs lines 50-63). -/
inductive SampleFrequency
  | Freq32khz
  | Freq44_1khz
  | Freq48khz
  | Freq96khz
  | Freq192khz
  | Freq384khz

/-- Word-select (lrck) and bit-clock (bck) frequency table, in Hz
(src/src/main.rs lines 197-206).  Every listed value is an integer and
exactly representable in `f32`, so `ℕ` is a faithful model. -/
def freqTable : SampleFrequency → ℕ × ℕ
  | .Freq32khz => (32000, 1024000)
  | .Freq44_1khz => (44100, 1411200)
  | .Freq48khz => (48000, 1536000)
  | .Freq96khz => (96000, 3072000)
  | .Freq192khz => (192000, 6144000)
  | .Freq384khz => (384000, 12288000)

/-! ### Basic facts about the fixed-point primitive -/

theorem fmul_mono_right {c : ℤ} (hc : 0 ≤ c) {x y : ℤ} (h : x ≤ y) :
    fmul c x ≤ fmul c y :=
  Int.ediv_le_ediv (by norm_num) (mul_le_mul_of_nonneg_left h hc)

theorem fmul_mono_left {c : ℤ} (hc : 0 ≤ c) {x y : ℤ} (h : x ≤ y) :
    fmul x c ≤ fmul y c :=
  Int.ediv_le_ediv (by norm_num) (mul_le_mul_of_nonneg_right h hc)

theorem fmul_anti_right {c : ℤ} (hc : c ≤ 0) {x y : ℤ} (h : x ≤ y) :
    fmul c y ≤ fmul c x :=
  Int.ediv_le_ediv (by norm_num) (mul_le_mul_of_nonpos_left h hc)

theorem gen_white_noise_lower (rv : ℕ) : -65535 ≤ gen_white_noise rv := by
  have hmask : (rv &&& 0xFFFF) ≤ 65535 := Nat.and_le_right
  unfold gen_white_noise
  split <;> omega

theorem gen_white_noise_upper (rv : ℕ) : gen_white_noise rv ≤ 65535 := by
  have hmask : (rv &&& 0xFFFF) ≤ 65535 := Nat.and_le_right
  unfold gen_white_noise
  split <;> omega

/-! ### Interval invariant of the brown-noise random walk

The carried `prior_sample` is the volume-scaled sample, so it lies in
`[-4096, 4095]` (raw bits, i.e. inside `(-0.0625, 0.0625]`): the
pre-volume sample lies in `[-16383, 16383]` and multiplying by
`VOLUME = 0.25` floor-divides the bits by 4. -/

theorem brownPre_bounds {p : ℤ} (hp1 : -4096 ≤ p) (hp2 : p ≤ 4095) (rv : ℕ) :
    -16383 ≤ brownPre p rv ∧ brownPre p rv ≤ 16383 := by
  have hL1 : fmul LEAKAGE (-4096) ≤ fmul LEAKAGE p :=
    fmul_mono_right (by norm_num [LEAKAGE]) hp1
  have hL2 : fmul LEAKAGE p ≤ fmul LEAKAGE 4095 :=
    fmul_mono_right (by norm_num [LEAKAGE]) hp2
  have he1 : fmul LEAKAGE (-4096) = -4084 := by decide
  have he2 : fmul LEAKAGE 4095 = 4082 := by decide
  have hS1 : fmul (-65535) SCALING ≤ fmul (gen_white_noise rv) SCALING :=
    fmul_mono_left (by norm_num [SCALING]) (gen_white_noise_lower rv)
  have hS2 : fmul (gen_white_noise rv) SCALING ≤ fmul 65535 SCALING :=
    fmul_mono_left (by norm_num [SCALING]) (gen_white_noise_upper rv)
  have he3 : fmul (-65535) SCALING = -655 := by decide
  have he4 : fmul 65535 SCALING = 654 := by decide
  unfold brownPre
  split
  · constructor <;> linarith
  · rename_i hcond
    push_neg at hcond
    unfold brownCandidate at hcond ⊢
    constructor <;> linarith [hcond.1, hcond.2]

theorem brownScaled_bounds {p : ℤ} (hp1 : -4096 ≤ p) (hp2 : p ≤ 4095) (rv : ℕ) :
    -4096 ≤ brownScaled p rv ∧ brownScaled p rv ≤ 4095 := by
  obtain ⟨h1, h2⟩ := brownPre_bounds hp1 hp2 rv
  have hV1 : fmul (-16383) VOLUME ≤ fmul (brownPre p rv) VOLUME :=
    fmul_mono_left (by norm_num [VOLUME]) h1
  have hV2 : fmul (brownPre p rv) VOLUME ≤ fmul 16383 VOLUME :=
    fmul_mono_left (by norm_num [VOLUME]) h2
  have he1 : fmul (-16383) VOLUME = -4096 := by decide
  have he2 : fmul 16383 VOLUME = 4095 := by decide
  unfold brownScaled
  constructor <;> linarith

theorem brownState_inv (rvs : List ℕ) (g : ℕ) {p : ℤ}
    (hp1 : -4096 ≤ p) (hp2 : p ≤ 4095) :
    -4096 ≤ (generate_brown_noise g p rvs).2 ∧ (generate_brown_noise g p rvs).2 ≤ 4095 := by
  induction rvs generalizing p with
  | nil => exact ⟨hp1, hp2⟩
  | cons rv rest ih =>
    obtain ⟨h1, h2⟩ := brownScaled_bounds hp1 hp2 rv
    exact ih h1 h2

theorem brownTrunc_bounds {p : ℤ} (hp1 : -4096 ≤ p) (hp2 : p ≤ 4095) (rv : ℕ) :
    -2048 ≤ brownTrunc p rv ∧ brownTrunc p rv ≤ 2047 := by
  obtain ⟨h1, h2⟩ := brownScaled_bounds hp1 hp2 rv
  have hM1 : fmul (-4096) I16F16MAX ≤ fmul (brownScaled p rv) I16F16MAX :=
    fmul_mono_left (by norm_num [I16F16MAX]) h1
  have hM2 : fmul (brownScaled p rv) I16F16MAX ≤ fmul 4095 I16F16MAX :=
    fmul_mono_left (by norm_num [I16F16MAX]) h2
  have hd1 : fmul (-4096) I16F16MAX / 65536 ≤ brownTrunc p rv :=
    Int.ediv_le_ediv (by norm_num) hM1
  have hd2 : brownTrunc p rv ≤ fmul 4095 I16F16MAX / 65536 :=
    Int.ediv_le_ediv (by norm_num) hM2
  have he1 : fmul (-4096) I16F16MAX / 65536 = -2048 := by decide
  have he2 : fmul 4095 I16F16MAX / 65536 = 2047 := by decide
  exact ⟨by linarith, by linarith⟩

/-! ### Structural lemmas about generate_brown_noise -/

theorem generate_brown_noise_gen_num (g h : ℕ) (p : ℤ) (rvs : List ℕ) :
    generate_brown_noise g p rvs = generate_brown_noise h p rvs := by
  induction rvs generalizing p with
  | nil => rfl
  | cons rv rest ih => simp [generate_brown_noise, ih]

theorem generate_brown_noise_append (g : ℕ) (p : ℤ) (l1 l2 : List ℕ) :
    generate_brown_noise g p (l1 ++ l2)
      = ((generate_brown_noise g p l1).1
           ++ (generate_brown_noise g (generate_brown_noise g p l1).2 l2).1,
         (generate_brown_noise g (generate_brown_noise g p l1).2 l2).2) := by
  induction l1 generalizing p with
  | nil => simp [generate_brown_noise]
  | cons rv rest ih => simp [generate_brown_noise, ih]

theorem generate_brown_noise_length (g : ℕ) (p : ℤ) (rvs : List ℕ) :
    (generate_brown_noise g p rvs).1.length = rvs.length := by
  induction rvs generalizing p with
  | nil => rfl
  | cons rv rest ih => simp [generate_brown_noise, ih]

/-! ### Claims C2 to C6 -/

/-- Claim C2, counterexample: with `prior_sample = 0` and random word
`0x0000FFFF` the pre-volume random-walk value is `654` (raw bits) but
the carried `NoiseState` after the iteration is the volume-scaled `163`:
line 114 of src/src/main.rs shadows `new_sample` with `new_sample *
VOLUME` before line 119 stores it into `prior_sample`, so the carried
state is the volume-scaled value, contrary to the claim. -/
theorem c2_counterexample :
    (generate_brown_noise 0 0 [65535]).2 = 163
  ∧ brownPre 0 65535 = 654
  ∧ (generate_brown_noise 0 0 [65535]).2 ≠ brownPre 0 65535 := by decide

/-- Claim C2 as amended: in every iteration the emitted word is derived
from the volume(0.25)-scaled random-walk value, and the carried
`NoiseState` for the next iteration is that same volume-scaled value
(not the pre-volume-scaled one). -/
theorem c2_amended (g : ℕ) (prior : ℤ) (rv : ℕ) (rest : List ℕ) :
    generate_brown_noise g prior (rv :: rest)
      = (brownWord prior rv
           :: (generate_brown_noise g (fmul (brownPre prior rv) VOLUME) rest).1,
         (generate_brown_noise g (fmul (brownPre prior rv) VOLUME) rest).2)
  ∧ (brownWord prior rv : ℤ)
      = fmul (fmul (brownPre prior rv) VOLUME) I16F16MAX / 65536 % 65536 := by
  constructor
  · rfl
  · unfold brownWord
    rw [Int.toNat_of_nonneg (Int.emod_nonneg _ (by norm_num))]
    rfl

/-- Claim C3: per iteration the candidate is
`LEAKAGE * prior + white * SCALING` (`LEAKAGE = 0.997`,
`SCALING = 0.01` as I16F16 bits), and whenever the candidate leaves the
open interval `(-0.25, 0.25)` the value actually used inverts the
direction of the white-noise step (`LEAKAGE * prior - white * SCALING`);
inside the open interval the candidate itself is used — a reflecting
boundary, not a clamp. -/
theorem c3_reflecting_boundary (prior : ℤ) (rv : ℕ) :
    brownCandidate prior rv = fmul LEAKAGE prior + fmul (gen_white_noise rv) SCALING
  ∧ brownPre prior rv =
      (if -16384 < brownCandidate prior rv ∧ brownCandidate prior rv < 16384
       then brownCandidate prior rv
       else fmul LEAKAGE prior - fmul (gen_white_noise rv) SCALING) := by
  refine ⟨rfl, ?_⟩
  unfold brownPre
  by_cases h : 16384 ≤ brownCandidate prior rv ∨ brownCandidate prior rv ≤ -16384
  · rw [if_pos h, if_neg (by omega)]
  · rw [if_neg h, if_pos (by omega)]

/-- Claim C4: starting from `NoiseState = 0`, for every draw sequence
and every step, the pre-volume-scaled random-walk value stays strictly
inside the open interval `(-0.25, 0.25)` (raw bits `(-16384, 16384)`):
the value at any step is `brownPre` of the state reached by an arbitrary
prefix of draws. -/
theorem c4_prevolume_invariant (g : ℕ) (pre : List ℕ) (rv : ℕ) :
    -16384 < brownPre (generate_brown_noise g 0 pre).2 rv
  ∧ brownPre (generate_brown_noise g 0 pre).2 rv < 16384 := by
  obtain ⟨h1, h2⟩ := @brownState_inv pre g 0 (by norm_num) (by norm_num)
  obtain ⟨h3, h4⟩ := brownPre_bounds h1 h2 rv
  exact ⟨by linarith, by linarith⟩

/-- Claim C5: for every 32-bit word, `gen_white_noise` produces a value
inside `[-1.0, 1.0 - 2^-16]` (raw bits `[-65536, 65535]`; in fact the
magnitude never exceeds `65535`), and the sign follows bit 31: bit set
means the low-16-bit magnitude is negated, bit clear means it is used
as is. -/
theorem c5_white_noise (rv : ℕ) (h : rv < 4294967296) :
    (-65536 ≤ gen_white_noise rv ∧ gen_white_noise rv ≤ 65535)
  ∧ (rv &&& 0x80000000 ≠ 0 → gen_white_noise rv = -((rv &&& 0xFFFF : ℕ) : ℤ))
  ∧ (rv &&& 0x80000000 = 0 → gen_white_noise rv = ((rv &&& 0xFFFF : ℕ) : ℤ)) := by
  refine ⟨⟨by linarith [gen_white_noise_lower rv], gen_white_noise_upper rv⟩, ?_, ?_⟩
  · intro hbit
    unfold gen_white_noise
    rw [if_neg hbit]
    ring
  · intro hbit
    unfold gen_white_noise
    rw [if_pos hbit]

/-- Claim C5 witness at the concrete word `0x8000FFFF`. -/
theorem c5_white_noise_witness :
    (-65536 ≤ gen_white_noise 2147549183 ∧ gen_white_noise 2147549183 ≤ 65535)
  ∧ ((2147549183 : ℕ) &&& 0x80000000 ≠ 0 →
       gen_white_noise 2147549183 = -(((2147549183 : ℕ) &&& 0xFFFF : ℕ) : ℤ))
  ∧ ((2147549183 : ℕ) &&& 0x80000000 = 0 →
       gen_white_noise 2147549183 = (((2147549183 : ℕ) &&& 0xFFFF : ℕ) : ℤ)) :=
  c5_white_noise 2147549183 (by norm_num)

/-- Claim C6: splitting the draw stream into a first buffer `l1` and a
second buffer `l2`, generating the first from state 0 and the second
from the state returned by the first call, yields exactly the words of
a single generation of `l1 ++ l2` from state 0, and the same final
state; the `gen_num` arguments are irrelevant.  In particular the
second buffer continues the random walk rather than restarting. -/
theorem c6_split_equals_whole (g g1 g2 : ℕ) (l1 l2 : List ℕ) :
    (generate_brown_noise g 0 (l1 ++ l2)).1
      = (generate_brown_noise g1 0 l1).1
          ++ (generate_brown_noise g2 (generate_brown_noise g1 0 l1).2 l2).1
  ∧ (generate_brown_noise g 0 (l1 ++ l2)).2
      = (generate_brown_noise g2 (generate_brown_noise g1 0 l1).2 l2).2 := by
  rw [generate_brown_noise_gen_num g g1 0 (l1 ++ l2),
      generate_brown_noise_append g1 0 l1 l2,
      generate_brown_noise_gen_num g1 g2 (generate_brown_noise g1 0 l1).2 l2]
  exact ⟨rfl, rfl⟩


/-! ### Scheduler lemmas and claims C7, C8 -/

theorem schedRun_zero (rng : ℕ → ℕ) : schedRun rng 0 = schedInit rng := rfl

theorem schedRun_succ (rng : ℕ → ℕ) (n : ℕ) :
    schedRun rng (n + 1) = schedStep rng (schedRun rng n) := rfl

theorem schedStep_gen_num (rng : ℕ → ℕ) (s : SchedState) :
    (schedStep rng s).gen_num = s.gen_num + 1 := rfl

theorem schedStep_prior (rng : ℕ → ℕ) (s : SchedState) :
    (schedStep rng s).prior
      = (generate_brown_noise s.gen_num s.prior (draws rng s.pos TABLE_SIZE)).2 := by
  simp only [schedStep]

theorem schedStep_handed (rng : ℕ → ℕ) (s : SchedState) :
    (schedStep rng s).handed
      = s.handed
          ++ [(generate_brown_noise s.gen_num s.prior (draws rng s.pos TABLE_SIZE)).1] := by
  simp only [schedStep]

theorem schedInit_prior (rng : ℕ → ℕ) :
    (schedInit rng).prior
      = (generate_brown_noise 1 (generate_brown_noise 0 0 (draws rng 0 TABLE_SIZE)).2
          (draws rng TABLE_SIZE TABLE_SIZE)).2 := by
  simp only [schedInit]

theorem schedInit_handed (rng : ℕ → ℕ) : (schedInit rng).handed = [] := by
  simp only [schedInit]

theorem draws_length (rng : ℕ → ℕ) (pos n : ℕ) : (draws rng pos n).length = n := by
  simp [draws]

theorem draws_const (c pos n : ℕ) : draws (fun _ => c) pos n = List.replicate n c := by
  simp [draws, List.eq_replicate_iff]

theorem generate_brown_noise_zero (g n : ℕ) :
    generate_brown_noise g 0 (List.replicate n 0) = (List.replicate n 0, 0) := by
  induction n with
  | zero => rfl
  | succ k ih =>
    have h1 : brownScaled 0 0 = 0 := by decide
    have h2 : brownWord 0 0 = 0 := by decide
    simp [List.replicate_succ, generate_brown_noise, h1, h2, ih]

theorem schedRun_gen_num (rng : ℕ → ℕ) (n : ℕ) :
    (schedRun rng n).gen_num = n + 2 := by
  induction n with
  | zero => rfl
  | succ k ih => rw [schedRun_succ, schedStep_gen_num, ih]

theorem schedRun_handed_length (rng : ℕ → ℕ) (n : ℕ) :
    (schedRun rng n).handed.length = n := by
  induction n with
  | zero => rfl
  | succ k ih =>
    rw [schedRun_succ, schedStep_handed, List.length_append, ih]
    rfl

theorem schedRun_handed_mem (rng : ℕ → ℕ) (n : ℕ) (b : List ℕ)
    (hb : b ∈ (schedRun rng n).handed) :
    b.length = TABLE_SIZE
    ∧ ∃ g p pos, b = (generate_brown_noise g p (draws rng pos TABLE_SIZE)).1 := by
  induction n with
  | zero =>
    rw [schedRun_zero, schedInit_handed] at hb
    simp at hb
  | succ k ih =>
    rw [schedRun_succ, schedStep_handed] at hb
    rcases List.mem_append.1 hb with h | h
    · exact ih h
    · have hb2 : b = (generate_brown_noise (schedRun rng k).gen_num
          (schedRun rng k).prior (draws rng (schedRun rng k).pos TABLE_SIZE)).1 := by
        simpa using h
      refine ⟨?_, _, _, _, hb2⟩
      rw [hb2, generate_brown_noise_length, draws_length]

theorem sched_zero_run (n : ℕ) :
    (schedRun (fun _ => 0) n).handed = List.replicate n (List.replicate TABLE_SIZE 0)
  ∧ (schedRun (fun _ => 0) n).prior = 0 := by
  induction n with
  | zero =>
    constructor
    · rw [schedRun_zero, schedInit_handed]
      rfl
    · rw [schedRun_zero, schedInit_prior, draws_const, draws_const,
          generate_brown_noise_zero]
      rw [show (List.replicate TABLE_SIZE (0 : ℕ), (0 : ℤ)).2 = (0 : ℤ) from rfl,
          generate_brown_noise_zero]
  | succ k ih =>
    constructor
    · rw [schedRun_succ, schedStep_handed, ih.1, ih.2, draws_const,
          generate_brown_noise_zero]
      rw [show (List.replicate TABLE_SIZE (0 : ℕ), (0 : ℤ)).1
            = List.replicate TABLE_SIZE (0 : ℕ) from rfl]
      rw [← List.replicate_succ']
    · rw [schedRun_succ, schedStep_prior, ih.2, draws_const,
          generate_brown_noise_zero]

/-- Claim C7: in the step-relation model of the scheduler loop (one step
per transfer-completion event, the transfer engine abstracted to the
buffer it was last handed), after `n` events the loop has generated
exactly `n` new buffers (`gen_num` has advanced from the 2 priming
generations to `n + 2`, and `n` buffers were handed over), and every
buffer handed to the engine through `read_next` is the complete output
of the `generate_brown_noise` call of that same iteration — all
`TABLE_SIZE` words written before the hand-off — never a partially
written buffer. -/
theorem c7_scheduler (rng : ℕ → ℕ) (n : ℕ) (b : List ℕ)
    (hb : b ∈ (schedRun rng n).handed) :
    (schedRun rng n).gen_num = n + 2
  ∧ (schedRun rng n).handed.length = n
  ∧ b.length = TABLE_SIZE
  ∧ ∃ g p pos, b = (generate_brown_noise g p (draws rng pos TABLE_SIZE)).1 := by
  obtain ⟨h1, h2⟩ := schedRun_handed_mem rng n b hb
  exact ⟨schedRun_gen_num rng n, schedRun_handed_length rng n, h1, h2⟩

/-- Claim C7 witness: one completion event on the all-zero random
stream. -/
theorem c7_scheduler_witness :
    (schedRun (fun _ => 0) 1).gen_num = 1 + 2
  ∧ (schedRun (fun _ => 0) 1).handed.length = 1
  ∧ (List.replicate TABLE_SIZE (0 : ℕ)).length = TABLE_SIZE
  ∧ ∃ g p pos, List.replicate TABLE_SIZE (0 : ℕ)
      = (generate_brown_noise g p (draws (fun _ => 0) pos TABLE_SIZE)).1 :=
  c7_scheduler (fun _ => 0) 1 (List.replicate TABLE_SIZE 0)
    (by rw [(sched_zero_run 1).1]; exact List.mem_singleton_self _)

/-- Claim C8 counterexample: at 44.1 kHz the configuration table lists a
bit clock of 1.4112 MHz, which is not 64 x 44100 Hz = 2.8224 MHz. -/
theorem c8_counterexample :
    (freqTable SampleFrequency.Freq44_1khz).2
      ≠ 64 * (freqTable SampleFrequency.Freq44_1khz).1 := by decide

/-- Claim C8 as amended: for every selectable `SampleFrequency` variant
the bit clock listed in the table equals 32 times the word-select
(sample) frequency (16 bits per channel, 2 channels per frame, matching
the PIO program), not the 64 x stated in the source comment. -/
theorem c8_amended (sf : SampleFrequency) :
    (freqTable sf).2 = 32 * (freqTable sf).1 := by
  cases sf <;> rfl

/-! ### Overflow analysis (claim C9)

The `fixed` crate computes an `I16F16` product in 64 bits and overflows
exactly when the shifted result leaves the `i32` range; sums overflow
when the exact sum leaves it.  For the brown-noise generator the
carried-state interval invariant bounds every intermediate.  For the
filter the output recursion
`y = 1.99130017 * y1 - 0.99171384 * y2 + input terms` is analysed with
the quadratic Lyapunov form `QI u v = 65536*u^2 - 130502*u*v +
64993*v^2` (65536 times `u^2 + a1*u*v + a2*v^2` on represented values),
which the exact recursion contracts by the factor `a2 < 1`; rounding
and input terms perturb one step by at most `R` with
`|R| <= 548 * 65536`. -/

/-- Range of a 32-bit two's-complement integer. -/
def i32Range (x : ℤ) : Prop := -2147483648 ≤ x ∧ x ≤ 2147483647

/-- No arithmetic operation of one brown-noise iteration overflows:
every fixed-point product, the candidate sum, the reflected difference,
the volume- and amplitude-scaled results stay in the i32 bit range, and
the truncated sample fits in an i16. -/
def brownNoOverflow (prior : ℤ) (rv : ℕ) : Prop :=
  i32Range (gen_white_noise rv)
  ∧ i32Range (fmul LEAKAGE prior)
  ∧ i32Range (fmul (gen_white_noise rv) SCALING)
  ∧ i32Range (brownCandidate prior rv)
  ∧ i32Range (fmul LEAKAGE prior - fmul (gen_white_noise rv) SCALING)
  ∧ i32Range (brownPre prior rv)
  ∧ i32Range (brownScaled prior rv)
  ∧ i32Range (fmul (brownScaled prior rv) I16F16MAX)
  ∧ -32768 ≤ brownTrunc prior rv ∧ brownTrunc prior rv ≤ 32767

theorem brownNoOverflow_of_inv {p : ℤ} (hp1 : -4096 ≤ p) (hp2 : p ≤ 4095)
    (rv : ℕ) : brownNoOverflow p rv := by
  have hw1 := gen_white_noise_lower rv
  have hw2 := gen_white_noise_upper rv
  have hL1 : fmul LEAKAGE (-4096) ≤ fmul LEAKAGE p :=
    fmul_mono_right (by norm_num [LEAKAGE]) hp1
  have hL2 : fmul LEAKAGE p ≤ fmul LEAKAGE 4095 :=
    fmul_mono_right (by norm_num [LEAKAGE]) hp2
  have he1 : fmul LEAKAGE (-4096) = -4084 := by decide
  have he2 : fmul LEAKAGE 4095 = 4082 := by decide
  have hS1 : fmul (-65535) SCALING ≤ fmul (gen_white_noise rv) SCALING :=
    fmul_mono_left (by norm_num [SCALING]) hw1
  have hS2 : fmul (gen_white_noise rv) SCALING ≤ fmul 65535 SCALING :=
    fmul_mono_left (by norm_num [SCALING]) hw2
  have he3 : fmul (-65535) SCALING = -655 := by decide
  have he4 : fmul 65535 SCALING = 654 := by decide
  obtain ⟨hpre1, hpre2⟩ := brownPre_bounds hp1 hp2 rv
  obtain ⟨hsc1, hsc2⟩ := brownScaled_bounds hp1 hp2 rv
  have hM1 : fmul (-4096) I16F16MAX ≤ fmul (brownScaled p rv) I16F16MAX :=
    fmul_mono_left (by norm_num [I16F16MAX]) hsc1
  have hM2 : fmul (brownScaled p rv) I16F16MAX ≤ fmul 4095 I16F16MAX :=
    fmul_mono_left (by norm_num [I16F16MAX]) hsc2
  have he5 : -2147483648 ≤ fmul (-4096) I16F16MAX := by decide
  have he6 : fmul 4095 I16F16MAX ≤ 2147483647 := by decide
  obtain ⟨ht1, ht2⟩ := brownTrunc_bounds hp1 hp2 rv
  unfold brownNoOverflow i32Range brownCandidate
  refine ⟨⟨by linarith, by linarith⟩, ⟨by linarith, by linarith⟩,
    ⟨by linarith, by linarith⟩, ⟨by linarith, by linarith⟩,
    ⟨by linarith, by linarith⟩, ⟨by linarith, by linarith⟩,
    ⟨by linarith, by linarith⟩, ⟨by linarith, by linarith⟩,
    by linarith, by linarith⟩

/-- Lyapunov quadratic form for the filter's output recursion, on raw
bits. -/
def QI (u v : ℤ) : ℤ := 65536 * u ^ 2 - 130502 * u * v + 64993 * v ^ 2

/-- Invariant level set for `QI`: `5 * 65536^3`. -/
def Mlyap : ℤ := 1407374883553280

/-- Most recent stored output, `outputs[(output_index + 1) % 2]`. -/
def outRecent (s : Butterworth) : ℤ := s.outputs (s.output_index + 1)

/-- Second most recent stored output, `outputs[output_index]`. -/
def outPrev (s : Butterworth) : ℤ := s.outputs s.output_index

/-- Inductive invariant of a filter run on inputs from `[-1.0, 1.0]`:
all stored inputs bounded by one, and the stored output pair inside the
`QI` level set. -/
def filterInv (s : Butterworth) : Prop :=
  (∀ i, -65536 ≤ s.inputs i ∧ s.inputs i ≤ 65536)
  ∧ QI (outRecent s) (outPrev s) ≤ Mlyap

theorem QI_cross_bound (u v : ℤ) :
    (130502 * u - 129986 * v) ^ 2 ≤ 260000 * QI u v := by
  unfold QI
  nlinarith [sq_nonneg (8587996 * u - 1827028 * v), sq_nonneg v]

theorem QI_fst_bound {u v : ℤ} (h : QI u v ≤ Mlyap) :
    -7400000 ≤ u ∧ u ≤ 7400000 := by
  unfold QI Mlyap at h
  constructor
  · nlinarith [sq_nonneg (129986 * v - 130502 * u), sq_nonneg (u + 7400000)]
  · nlinarith [sq_nonneg (129986 * v - 130502 * u), sq_nonneg (u - 7400000)]

theorem QI_snd_bound {u v : ℤ} (h : QI u v ≤ Mlyap) :
    -7400000 ≤ v ∧ v ≤ 7400000 := by
  unfold QI Mlyap at h
  constructor
  · nlinarith [sq_nonneg (131072 * u - 130502 * v), sq_nonneg (v + 7400000)]
  · nlinarith [sq_nonneg (131072 * u - 130502 * v), sq_nonneg (v - 7400000)]

theorem lyap_step {u v R y : ℤ} (hQ : QI u v ≤ Mlyap)
    (hy : 65536 * y = 130502 * u - 64993 * v + R)
    (hR1 : -35913728 ≤ R) (hR2 : R ≤ 35913728) :
    QI y u ≤ Mlyap := by
  have hid : 65536 * QI y u
      = 64993 * QI u v + R * (130502 * u - 129986 * v) + R ^ 2 := by
    unfold QI
    linear_combination (65536 * y - 64993 * v + R) * hy
  have hL2 : (130502 * u - 129986 * v) ^ 2 ≤ 260000 * Mlyap :=
    le_trans (QI_cross_bound u v) (mul_le_mul_of_nonneg_left hQ (by norm_num))
  have hcross : 1066 * (R * (130502 * u - 129986 * v))
      ≤ 284089 * R ^ 2 + (130502 * u - 129986 * v) ^ 2 := by
    nlinarith [sq_nonneg (533 * R - (130502 * u - 129986 * v))]
  have hR2sq : R ^ 2 ≤ 1289795858857984 := by nlinarith
  have hconst : (285155 : ℤ) * 1289795858857984 + 260000 * Mlyap
      ≤ 578838 * Mlyap := by
    unfold Mlyap
    norm_num
  linarith

/-- No arithmetic operation of one `Butterworth::compute` call
overflows: each of the five fixed-point products and each running
partial sum of the difference equation stays in the i32 bit range. -/
def computeNoOverflow (s : Butterworth) (input : ℤ) : Prop :=
  i32Range (fmul b0 ((s.push_input input).inputs (s.push_input input).input_index))
  ∧ i32Range (fmul b1 ((s.push_input input).inputs ((s.push_input input).input_index + 2)))
  ∧ i32Range (fmul b2 ((s.push_input input).inputs ((s.push_input input).input_index + 1)))
  ∧ i32Range (fmul a1 ((s.push_input input).outputs ((s.push_input input).output_index + 1)))
  ∧ i32Range (fmul a2 ((s.push_input input).outputs (s.push_input input).output_index))
  ∧ i32Range (fmul b0 ((s.push_input input).inputs (s.push_input input).input_index)
      + fmul b1 ((s.push_input input).inputs ((s.push_input input).input_index + 2)))
  ∧ i32Range (fmul b0 ((s.push_input input).inputs (s.push_input input).input_index)
      + fmul b1 ((s.push_input input).inputs ((s.push_input input).input_index + 2))
      + fmul b2 ((s.push_input input).inputs ((s.push_input input).input_index + 1)))
  ∧ i32Range (fmul b0 ((s.push_input input).inputs (s.push_input input).input_index)
      + fmul b1 ((s.push_input input).inputs ((s.push_input input).input_index + 2))
      + fmul b2 ((s.push_input input).inputs ((s.push_input input).input_index + 1))
      - fmul a1 ((s.push_input input).outputs ((s.push_input input).output_index + 1)))
  ∧ i32Range (fmul b0 ((s.push_input input).inputs (s.push_input input).input_index)
      + fmul b1 ((s.push_input input).inputs ((s.push_input input).input_index + 2))
      + fmul b2 ((s.push_input input).inputs ((s.push_input input).input_index + 1))
      - fmul a1 ((s.push_input input).outputs ((s.push_input input).output_index + 1))
      - fmul a2 ((s.push_input input).outputs (s.push_input input).output_index))

theorem push_input_inputs (s : Butterworth) (x : ℤ) :
    (s.push_input x).inputs = Function.update s.inputs s.input_index x := rfl

theorem push_input_bounds {s : Butterworth} {x : ℤ}
    (hs : ∀ i, -65536 ≤ s.inputs i ∧ s.inputs i ≤ 65536)
    (hx1 : -65536 ≤ x) (hx2 : x ≤ 65536) :
    ∀ i, -65536 ≤ (s.push_input x).inputs i ∧ (s.push_input x).inputs i ≤ 65536 := by
  intro i
  rw [push_input_inputs, Function.update_apply]
  split
  · exact ⟨hx1, hx2⟩
  · exact hs i

theorem fin2_add_one_ne : ∀ i : Fin 2, i + 1 ≠ i := by decide

theorem fin2_add_one_add_one : ∀ i : Fin 2, i + 1 + 1 = i := by decide

theorem compute_snd (s : Butterworth) (x : ℤ) :
    (s.compute x).2
      = fmul b0 ((s.push_input x).inputs (s.push_input x).input_index)
        + fmul b1 ((s.push_input x).inputs ((s.push_input x).input_index + 2))
        + fmul b2 ((s.push_input x).inputs ((s.push_input x).input_index + 1))
        - fmul a1 ((s.push_input x).outputs ((s.push_input x).output_index + 1))
        - fmul a2 ((s.push_input x).outputs (s.push_input x).output_index) := rfl

theorem compute_fst (s : Butterworth) (x : ℤ) :
    (s.compute x).1 = (s.push_input x).push_output ((s.compute x).2) := rfl

theorem push_output_outputs (s : Butterworth) (y : ℤ) :
    (s.push_output y).outputs = Function.update s.outputs s.output_index y := rfl

theorem push_output_output_index (s : Butterworth) (y : ℤ) :
    (s.push_output y).output_index = s.output_index + 1 := rfl

theorem outRecent_push_output (s : Butterworth) (y : ℤ) :
    outRecent (s.push_output y) = y := by
  unfold outRecent
  rw [push_output_outputs, push_output_output_index, fin2_add_one_add_one s.output_index,
      Function.update_same]

theorem outPrev_push_output (s : Butterworth) (y : ℤ) :
    outPrev (s.push_output y) = outRecent s := by
  unfold outPrev outRecent
  rw [push_output_outputs, push_output_output_index,
      Function.update_noteq (fin2_add_one_ne s.output_index)]

theorem compute_preserves (s : Butterworth) (x : ℤ) (hs : filterInv s)
    (hx1 : -65536 ≤ x) (hx2 : x ≤ 65536) :
    computeNoOverflow s x ∧ filterInv (s.compute x).1 := by
  obtain ⟨hin, hQ⟩ := hs
  have hin1 := push_input_bounds hin hx1 hx2
  obtain ⟨hu1, hu2⟩ := QI_fst_bound hQ
  obtain ⟨hv1, hv2⟩ := QI_snd_bound hQ
  have hb0a : fmul b0 (-65536)
      ≤ fmul b0 ((s.push_input x).inputs (s.push_input x).input_index) :=
    fmul_mono_right (by norm_num [b0]) (hin1 _).1
  have hb0b : fmul b0 ((s.push_input x).inputs (s.push_input x).input_index)
      ≤ fmul b0 65536 :=
    fmul_mono_right (by norm_num [b0]) (hin1 _).2
  have hb0e1 : fmul b0 (-65536) = -272 := by decide
  have hb0e2 : fmul b0 65536 = 272 := by decide
  have hp2z : fmul b1 ((s.push_input x).inputs ((s.push_input x).input_index + 2))
      = 0 := by
    simp [fmul, b1]
  have hb2a : fmul b2 65536
      ≤ fmul b2 ((s.push_input x).inputs ((s.push_input x).input_index + 1)) :=
    fmul_anti_right (by norm_num [b2]) (hin1 _).2
  have hb2b : fmul b2 ((s.push_input x).inputs ((s.push_input x).input_index + 1))
      ≤ fmul b2 (-65536) :=
    fmul_anti_right (by norm_num [b2]) (hin1 _).1
  have hb2e1 : fmul b2 65536 = -272 := by decide
  have hb2e2 : fmul b2 (-65536) = 272 := by decide
  have hru : (s.push_input x).outputs ((s.push_input x).output_index + 1)
      = outRecent s := rfl
  have hrv : (s.push_input x).outputs (s.push_input x).output_index
      = outPrev s := rfl
  have hp4a : fmul a1 7400000 ≤ fmul a1 (outRecent s) :=
    fmul_anti_right (by norm_num [a1]) hu2
  have hp4b : fmul a1 (outRecent s) ≤ fmul a1 (-7400000) :=
    fmul_anti_right (by norm_num [a1]) hu1
  have hp4e1 : fmul a1 7400000 = -14735639 := by decide
  have hp4e2 : fmul a1 (-7400000) = 14735638 := by decide
  have hp5a : fmul a2 (-7400000) ≤ fmul a2 (outPrev s) :=
    fmul_mono_right (by norm_num [a2]) hv1
  have hp5b : fmul a2 (outPrev s) ≤ fmul a2 7400000 :=
    fmul_mono_right (by norm_num [a2]) hv2
  have hp5e1 : fmul a2 (-7400000) = -7338688 := by decide
  have hp5e2 : fmul a2 7400000 = 7338687 := by decide
  have hd4 : 65536 * fmul a1 (outRecent s) + a1 * outRecent s % 65536
      = a1 * outRecent s := by
    rw [show fmul a1 (outRecent s) = a1 * outRecent s / 65536 from rfl]
    exact Int.ediv_add_emod _ _
  have hd5 : 65536 * fmul a2 (outPrev s) + a2 * outPrev s % 65536
      = a2 * outPrev s := by
    rw [show fmul a2 (outPrev s) = a2 * outPrev s / 65536 from rfl]
    exact Int.ediv_add_emod _ _
  have hr4a : 0 ≤ a1 * outRecent s % 65536 := Int.emod_nonneg _ (by norm_num)
  have hr4b : a1 * outRecent s % 65536 < 65536 := Int.emod_lt_of_pos _ (by norm_num)
  have hr5a : 0 ≤ a2 * outPrev s % 65536 := Int.emod_nonneg _ (by norm_num)
  have hr5b : a2 * outPrev s % 65536 < 65536 := Int.emod_lt_of_pos _ (by norm_num)
  have hnum4 : a1 * outRecent s = -(130502 * outRecent s) := by
    rw [show a1 = (-130502 : ℤ) from rfl]
    ring
  have hnum5 : a2 * outPrev s = 64993 * outPrev s := by
    rw [show a2 = (64993 : ℤ) from rfl]
  have hy : 65536 * (s.compute x).2
      = 130502 * outRecent s - 64993 * outPrev s
        + (65536 * (fmul b0 ((s.push_input x).inputs (s.push_input x).input_index)
              + fmul b1 ((s.push_input x).inputs ((s.push_input x).input_index + 2))
              + fmul b2 ((s.push_input x).inputs ((s.push_input x).input_index + 1)))
           + a1 * outRecent s % 65536 + a2 * outPrev s % 65536) := by
    rw [compute_snd s x, hru, hrv]
    linarith [hd4, hd5, hnum4, hnum5]
  have hR1 : -35913728
      ≤ 65536 * (fmul b0 ((s.push_input x).inputs (s.push_input x).input_index)
            + fmul b1 ((s.push_input x).inputs ((s.push_input x).input_index + 2))
            + fmul b2 ((s.push_input x).inputs ((s.push_input x).input_index + 1)))
         + a1 * outRecent s % 65536 + a2 * outPrev s % 65536 := by
    linarith
  have hR2 : 65536 * (fmul b0 ((s.push_input x).inputs (s.push_input x).input_index)
            + fmul b1 ((s.push_input x).inputs ((s.push_input x).input_index + 2))
            + fmul b2 ((s.push_input x).inputs ((s.push_input x).input_index + 1)))
         + a1 * outRecent s % 65536 + a2 * outPrev s % 65536 ≤ 35913728 := by
    linarith
  have hQnew : QI ((s.compute x).2) (outRecent s) ≤ Mlyap :=
    lyap_step hQ hy hR1 hR2
  have hysum : (s.compute x).2
      = fmul b0 ((s.push_input x).inputs (s.push_input x).input_index)
        + fmul b1 ((s.push_input x).inputs ((s.push_input x).input_index + 2))
        + fmul b2 ((s.push_input x).inputs ((s.push_input x).input_index + 1))
        - fmul a1 (outRecent s) - fmul a2 (outPrev s) := by
    rw [compute_snd s x, hru, hrv]
  constructor
  · unfold computeNoOverflow i32Range
    rw [hru, hrv]
    refine ⟨⟨by linarith, by linarith⟩, ⟨by linarith, by linarith⟩,
      ⟨by linarith, by linarith⟩, ⟨by linarith, by linarith⟩,
      ⟨by linarith, by linarith⟩, ⟨by linarith, by linarith⟩,
      ⟨by linarith, by linarith⟩, ⟨by linarith, by linarith⟩,
      ⟨by linarith, by linarith⟩⟩
  · rw [compute_fst]
    constructor
    · intro i
      rw [show ((s.push_input x).push_output ((s.compute x).2)).inputs
            = (s.push_input x).inputs from rfl]
      exact hin1 i
    · rw [outRecent_push_output, outPrev_push_output,
          show outRecent (s.push_input x) = outRecent s from rfl]
      exact hQnew

theorem filterInv_new : filterInv Butterworth.new := by
  constructor
  · intro i
    constructor <;> norm_num [Butterworth.new]
  · norm_num [QI, outRecent, outPrev, Butterworth.new, Mlyap]

theorem filterInv_run (xs : List ℤ) (s : Butterworth) (hs : filterInv s)
    (hxs : ∀ z ∈ xs, -65536 ≤ z ∧ z ≤ 65536) :
    filterInv (computeRunState s xs) := by
  induction xs generalizing s with
  | nil => exact hs
  | cons xh rest ih =>
    have hx := hxs xh (List.mem_cons_self xh rest)
    have hstep := compute_preserves s xh hs hx.1 hx.2
    have hrun : computeRunState s (xh :: rest)
        = computeRunState ((s.compute xh).1) rest := by
      simp [computeRunState]
    rw [hrun]
    exact ih ((s.compute xh).1) hstep.2 (fun z hz => hxs z (List.mem_cons_of_mem xh hz))

/-! ### Claims C1, C9, C10 -/

/-- Claim C1 (code-bug evidence): on a fresh filter, the first call
`compute(1.0)` (raw bits 65536) returns `0`, while the difference
equation documented in the source comment gives `y[0] = b0 * x[0]`,
i.e. raw bits `272` (0.00414308).  The input-history reads are
misaligned: after the push, `inputs[input_index]` holds `x[n-2]`,
`inputs[(input_index+2) % 3]` holds `x[n]` and
`inputs[(input_index+1) % 3]` holds `x[n-1]`, so `b0` multiplies
`x[n-2]` and `b1 = 0` multiplies the current input. -/
theorem c1_first_sample_diverges :
    (Butterworth.new.compute 65536).2 = 0
  ∧ fmul b0 65536 = 272
  ∧ (272 : ℤ) ≠ 0 := by
  refine ⟨by decide, by decide, by decide⟩

/-- Claim C9: starting from `NoiseState = 0`, every iteration of every
`generate_brown_noise` run is overflow-free, and starting from a fresh
filter, every `Butterworth::compute` call of every run on inputs from
`[-1.0, 1.0]` is overflow-free — the overflow branch of every
fixed-point operation (including the final `I16F16::MAX` scaling and
the `i16` truncation) is unreachable under these preconditions. -/
theorem c9_no_overflow :
    (∀ (g : ℕ) (pre : List ℕ) (rv : ℕ),
        brownNoOverflow (generate_brown_noise g 0 pre).2 rv)
  ∧ (∀ (xs : List ℤ) (x : ℤ),
        (∀ z ∈ xs, -65536 ≤ z ∧ z ≤ 65536) → -65536 ≤ x → x ≤ 65536 →
        computeNoOverflow (computeRunState Butterworth.new xs) x) := by
  constructor
  · intro g pre rv
    obtain ⟨h1, h2⟩ := @brownState_inv pre g 0 (by norm_num) (by norm_num)
    exact brownNoOverflow_of_inv h1 h2 rv
  · intro xs x hxs hx1 hx2
    exact (compute_preserves (computeRunState Butterworth.new xs) x
      (filterInv_run xs Butterworth.new filterInv_new hxs) hx1 hx2).1

/-- Claim C9 witness: a concrete brown-noise step and a concrete filter
call. -/
theorem c9_no_overflow_witness :
    brownNoOverflow (generate_brown_noise 7 0 [42]).2 99
  ∧ computeNoOverflow (computeRunState Butterworth.new [65536]) 65536 :=
  ⟨c9_no_overflow.1 7 [42] 99,
   c9_no_overflow.2 [65536] 65536
     (by
       intro z hz
       rw [List.mem_singleton] at hz
       subst hz
       omega)
     (by norm_num) (by norm_num)⟩

theorem brownWord_cast (p : ℤ) (rv : ℕ) :
    (brownWord p rv : ℤ) = brownTrunc p rv % 65536 := by
  unfold brownWord
  rw [Int.toNat_of_nonneg (Int.emod_nonneg _ (by norm_num))]

theorem brownWord_high_zero (p : ℤ) (rv : ℕ) : brownWord p rv / 65536 = 0 := by
  apply Nat.div_eq_of_lt
  have h1 : (brownWord p rv : ℤ) < 65536 := by
    rw [brownWord_cast]
    exact Int.emod_lt_of_pos _ (by norm_num)
  exact_mod_cast h1

theorem brown_words_mem (g : ℕ) (rvs : List ℕ) (p : ℤ) (w : ℕ)
    (hw : w ∈ (generate_brown_noise g p rvs).1) :
    ∃ q rv2, w = brownWord q rv2 := by
  induction rvs generalizing p with
  | nil => simp [generate_brown_noise] at hw
  | cons rv rest ih =>
    simp only [generate_brown_noise, List.mem_cons] at hw
    rcases hw with h | h
    · exact ⟨p, rv, h⟩
    · exact ih _ h

/-- Claim C10: every 32-bit word `generate_brown_noise` writes has its
high 16 bits equal to zero (so stereo channel A is always silent), and
the word produced at any step of a run from state 0 equals, in its low
16 bits, the two's-complement encoding of the i16 obtained by
truncating the volume-scaled sample multiplied by `I16F16::MAX` (which
does fit in an i16). -/
theorem c10_word_layout (g : ℕ) (pre : List ℕ) (rv : ℕ) (w : ℕ)
    (hw : w ∈ (generate_brown_noise g 0 (pre ++ [rv])).1) :
    w / 65536 = 0
  ∧ (brownWord (generate_brown_noise g 0 pre).2 rv : ℤ)
      = brownTrunc (generate_brown_noise g 0 pre).2 rv % 65536
  ∧ -32768 ≤ brownTrunc (generate_brown_noise g 0 pre).2 rv
  ∧ brownTrunc (generate_brown_noise g 0 pre).2 rv ≤ 32767 := by
  obtain ⟨q, rv2, hq⟩ := brown_words_mem g (pre ++ [rv]) 0 w hw
  obtain ⟨h1, h2⟩ := @brownState_inv pre g 0 (by norm_num) (by norm_num)
  obtain ⟨ht1, ht2⟩ := brownTrunc_bounds h1 h2 rv
  exact ⟨hq ▸ brownWord_high_zero q rv2, brownWord_cast _ _, by linarith, by linarith⟩

/-- Claim C10 witness: first word of a run on the single draw 5. -/
theorem c10_word_layout_witness :
    (0 : ℕ) / 65536 = 0
  ∧ (brownWord (generate_brown_noise 0 0 []).2 5 : ℤ)
      = brownTrunc (generate_brown_noise 0 0 []).2 5 % 65536
  ∧ -32768 ≤ brownTrunc (generate_brown_noise 0 0 []).2 5
  ∧ brownTrunc (generate_brown_noise 0 0 []).2 5 ≤ 32767 :=
  c10_word_layout 0 [] 5 0 (by decide)
